import Mathlib

/-!
Verification of the core of the book-reader repository: the text chunker and
generation pipeline (AudioController, src/unnamed/part_002) and the playback
engine (src/App.tsx).  Strings are modelled as `List Char`, wall-clock and
audio-clock times as `ℚ`, and the remote synthesis call as an oracle
`List Char → Except String Nat` returning an abstract decoded-audio payload.
-/

namespace BookReader

/-! ## Chunker (src/unnamed/part_002, getSentencesFromText / calculateChunks)

`getSentencesFromText` does `text.split(/(?<=[.!?\n\r]+)\s*/)` and filters out
empty / whitespace-only pieces.  The split is modelled faithfully to the
ECMAScript `String.prototype.split` algorithm: a separator match at position
`q` exists iff the previous character is one of `.!?\n\r` (the lookbehind) and
the separator consumes the maximal whitespace run starting at `q` (greedy
`\s*`); an empty match at the start of the current piece (`e = p`) is skipped.
-/

/-- The ECMAScript `\s` character class. -/
def jsWS (c : Char) : Bool :=
  c = ' ' || c = '\t' || c = '\n' || c = '\r' || c = '\x0b' || c = '\x0c' ||
  c = ' ' || c = ' ' || (' ' ≤ c && c ≤ ' ') ||
  c = ' ' || c = ' ' || c = ' ' || c = ' ' ||
  c = '　' || c = '﻿'

/-- The character class `[.!?\n\r]` of the sentence-split lookbehind. -/
def sentenceBoundary (c : Char) : Bool :=
  c = '.' || c = '!' || c = '?' || c = '\n' || c = '\r'

/-- Whether the character before the current split position (if any) lets the
lookbehind `(?<=[.!?\n\r]+)` match. -/
def prevBoundary : Option Char → Bool
  | none => false
  | some c => sentenceBoundary c

/-- JavaScript `String.prototype.trim`: strip `\s` from both ends. -/
def jsTrim (s : List Char) : List Char :=
  ((s.dropWhile jsWS).reverse.dropWhile jsWS).reverse

/-- The split loop of `text.split(/(?<=[.!?\n\r]+)\s*/)`.  `prev` is the
character before the current position, `cur` the current piece (reversed),
`skip` whether we are inside a whitespace run already consumed by a greedy
separator match. -/
def splitWalk (prev : Option Char) (cur : List Char) (skip : Bool) :
    List Char → List (List Char)
  | [] => [cur.reverse]
  | c :: rest =>
    if skip then
      if jsWS c then splitWalk (some c) cur true rest
      else splitWalk (some c) (c :: cur) false rest
    else if prevBoundary prev then
      if jsWS c then
        -- non-empty separator: close the current piece and consume the run
        cur.reverse :: splitWalk (some c) [] true rest
      else if cur.isEmpty then
        -- empty match at the start of a piece is skipped (the `e = p` rule)
        splitWalk (some c) (c :: cur) false rest
      else
        -- empty separator: close the current piece, start a new one with `c`
        cur.reverse :: splitWalk (some c) [c] false rest
    else
      splitWalk (some c) (c :: cur) false rest

/-- `getSentencesFromText` of src/unnamed/part_002 lines 89-93. -/
def getSentencesFromText (text : List Char) : List (List Char) :=
  if text.isEmpty || (jsTrim text).isEmpty then []
  else (splitWalk none [] false text).filter fun s => !s.isEmpty && !(jsTrim s).isEmpty

/-- The hard-split loop `for (i = 0; i < sentence.length; i += MAX) push
substring(i, i + MAX)`, with fuel for termination (the fuel `s.length`
suffices whenever `maxChars > 0`). -/
def hardSplitAux (maxChars : Nat) : Nat → List Char → List (List Char)
  | 0, _ => []
  | _, [] => []
  | fuel + 1, s => s.take maxChars :: hardSplitAux maxChars fuel (s.drop maxChars)

/-- Hard-splitting an over-long sentence into `maxChars`-sized slices. -/
def hardSplitSentence (maxChars : Nat) (s : List Char) : List (List Char) :=
  hardSplitAux maxChars s.length s

/-- The sentence-packing loop of `calculateChunks` (src/unnamed/part_002
lines 100-120), with the trailing flush of the pending chunk. -/
def packLoop (maxChars : Nat) : List (List Char) → List Char → List (List Char)
  | [], cur => if cur.isEmpty then [] else [cur]
  | sentence :: rest, cur =>
    if maxChars < sentence.length then
      (if cur.isEmpty then [] else [cur]) ++ hardSplitSentence maxChars sentence ++
        packLoop maxChars rest []
    else if maxChars < (cur ++ sentence).length then
      cur :: packLoop maxChars rest sentence
    else
      packLoop maxChars rest (cur ++ sentence)

/-- `calculateChunks` of src/unnamed/part_002 lines 95-122.  The source uses
the module constant `MAX_CHARS_PER_REQUEST = 4500`; here the budget is a
parameter, matching the spec's treatment of it as a tunable constant. -/
def calculateChunks (maxChars : Nat) (text : List Char) : List (List Char) :=
  if (jsTrim text).isEmpty then []
  else packLoop maxChars (getSentencesFromText text) []

/-- The request-size budget used by the source. -/
def MAX_CHARS_PER_REQUEST : Nat := 4500

/-! ## Playback engine (src/App.tsx)

The engine state gathers the React state and refs of `App`:
`audioSegments`, `currentSegment`, `isPlaying`, `currentTime`, `duration`,
`playbackRate`, `startOffsetRef` and `contextStartTimeRef` (the audio-clock
anchor).  Each transition folds in the React effects that the corresponding
handler triggers (the main playback effect, and the segment-change effect that
resets duration/time/offset), evaluated at a single instant `now` of the
audio-context clock. -/

/-- A playable segment as the engine sees it: an id and an audio duration. -/
structure Seg where
  id : Nat
  dur : ℚ
deriving DecidableEq

/-- Playback-engine state (src/App.tsx lines 12-28). -/
structure AppState where
  segments : List Seg
  current : Option Seg
  isPlaying : Bool
  currentTime : ℚ
  duration : ℚ
  rate : ℚ
  startOffset : ℚ
  anchor : ℚ
deriving DecidableEq

/-- The position-reporting `tick` (src/App.tsx lines 109-116):
`min(startOffset + (now - anchor) * currentRate, duration)`. -/
def reportedAt (now : ℚ) (s : AppState) : ℚ :=
  min (s.startOffset + (now - s.anchor) * s.rate) s.duration

/-- The live playback-rate effect (src/App.tsx lines 93-97): it only updates
the source node's rate (and the rate ref); anchor and offset are untouched. -/
def setRateLive (r : ℚ) (s : AppState) : AppState :=
  { s with rate := r }

/-- Transition to paused: `setIsPlaying(false)` plus the main effect's else
branch (src/App.tsx lines 144-151), which folds the elapsed time into
`startOffsetRef` clamped to the duration, and the last tick's report. -/
def pauseAt (now : ℚ) (s : AppState) : AppState :=
  { s with
    isPlaying := false,
    startOffset := min (s.startOffset + (now - s.anchor) * s.rate) s.duration,
    currentTime := min (s.startOffset + (now - s.anchor) * s.rate) s.duration }

/-- `segments.findIndex(s => s.id === current?.id)` as an `Option Nat`. -/
def segIndex (segs : List Seg) : Option Seg → Option Nat
  | none => none
  | some c => segs.findIdx? fun s => s.id == c.id

/-- `handleTrackEnd` (src/App.tsx lines 79-90) plus the effects a segment
change triggers: select the next segment (duration/time/offset reset, source
restarted at `now` since `isPlaying` stays as it was), or pause if the current
segment is last or not found. -/
def handleTrackEnd (now : ℚ) (s : AppState) : AppState :=
  match segIndex s.segments s.current with
  | some i =>
    match s.segments[i + 1]? with
    | some nxt =>
      { s with current := some nxt, duration := nxt.dur, currentTime := 0,
               startOffset := 0, anchor := now }
    | none => pauseAt now s
  | none => pauseAt now s

/-- The `source.onended` handler (src/App.tsx lines 131-143): compute the
final time from the clock math and auto-advance only when it reached the
duration within the 0.1 s epsilon; otherwise just stop. -/
def onEnded (now : ℚ) (s : AppState) : AppState :=
  if s.duration - 1 / 10 ≤ s.startOffset + (now - s.anchor) * s.rate then
    handleTrackEnd now s
  else
    pauseAt now s

/-- `handleSeek` (src/App.tsx lines 194-203).  While paused it just writes
`newTime` into `currentTime` and `startOffsetRef` (no clamping in the code);
while playing, the pause-then-play restart first folds the elapsed time on
top of the freshly written offset, then re-anchors. -/
def handleSeek (now t : ℚ) (s : AppState) : AppState :=
  if s.isPlaying then
    { s with
      startOffset := min (t + (now - s.anchor) * s.rate) s.duration,
      currentTime := min (t + (now - s.anchor) * s.rate) s.duration,
      anchor := now }
  else
    { s with currentTime := t, startOffset := t }

/-- `setIsPlaying(b)` plus the main playback effect: starting re-anchors the
clock, stopping folds the elapsed time; setting the same value is a no-op. -/
def setPlaying (now : ℚ) (b : Bool) (s : AppState) : AppState :=
  if s.isPlaying = b then s
  else if b then { s with isPlaying := true, anchor := now }
  else pauseAt now s

/-- `handleMainPlayPause` (src/App.tsx lines 176-184): with a selected
segment, set the requested playing state; with none selected, play the first
playlist segment if the playlist is non-empty, else do nothing. -/
def handleMainPlayPause (now : ℚ) (b : Bool) (s : AppState) : AppState :=
  match s.current with
  | some _ => setPlaying now b s
  | none =>
    match s.segments with
    | [] => s
    | s0 :: _ =>
      { s with current := some s0, isPlaying := true, duration := s0.dur,
               currentTime := 0, startOffset := 0, anchor := now }

/-- `handleAutoplayFirstSegment` (src/App.tsx lines 186-192): select and play
the given segment only when nothing is playing and nothing is selected. -/
def handleAutoplayFirstSegment (now : ℚ) (sg : Seg) (s : AppState) : AppState :=
  if s.isPlaying = false ∧ s.current = none then
    { s with current := some sg, isPlaying := true, duration := sg.dur,
             currentTime := 0, startOffset := 0, anchor := now }
  else s

/-! ## Generation pipeline (src/unnamed/part_002, handleGenerate / handleStop)

The remote synthesis call is an oracle `List Char → Except String Nat`
(chunk text to an abstract decoded-audio payload, or a failure message).
`Promise.all` over a page's chunks is `allSynth`: all calls are issued, and
the first failure in chunk order is the rejection reason.  Cooperative
cancellation (`isCancelledRef`) is monotone within one run: it is modelled by
`cancelSince = some n`, meaning the flag reads true at the `n`-th poll point
onward, where the poll at the top of page iteration `i` has index `2*i` and
the poll after that page's synthesis batch has index `2*i + 1`. -/

/-- One page's fully synthesized audio segment (src/types.ts `AudioSegment`);
`audio` is the list of decoded chunk payloads in original chunk order
(the concatenation performed by `concatAudioBuffers`). -/
structure Segment where
  text : List Char
  audio : List Nat
  pageFrom : Nat
  pageTo : Nat
deriving DecidableEq

/-- `Promise.all(textChunks.map(chunk => generateSpeech(chunk)))`. -/
def allSynth (synth : List Char → Except String Nat) :
    List (List Char) → Except String (List Nat)
  | [] => Except.ok []
  | c :: rest =>
    match synth c, allSynth synth rest with
    | Except.error e, _ => Except.error e
    | Except.ok _, Except.error e => Except.error e
    | Except.ok v, Except.ok vs => Except.ok (v :: vs)

/-- Whether `isCancelledRef.current` reads true at poll point `c`. -/
def observedCancel : Option Nat → Nat → Bool
  | none, _ => false
  | some n, c => decide (n ≤ c)

/-- Loop-visible generation state: segments appended to the playlist by this
run, pages completed (`progress`), synthesis calls issued (in call order),
and the segment handed to `onAutoplayFirstSegment`, if any. -/
structure GenState where
  segments : List Segment
  progress : Nat
  calls : List (List Char)
  autoplay : Option Segment
deriving DecidableEq

/-- How the page loop of `handleGenerate` exited: ran to completion, broke on
an observed cancellation, or threw from a failed synthesis batch (the `Nat`
is the poll-point index at which the catch/finally then read the flag). -/
inductive LoopExit where
  | finished : LoopExit
  | brokeCancel : LoopExit
  | threw : String → Nat → LoopExit
deriving DecidableEq

/-- The page loop of `handleGenerate` (src/unnamed/part_002 lines 176-224).
`txt :: rest` are the texts of the remaining pages, page number
`firstPage + idx`. -/
def genLoop (synth : List Char → Except String Nat) (cancelSince : Option Nat)
    (firstPage maxChars : Nat) :
    List (List Char) → Nat → GenState → GenState × LoopExit
  | [], _, st => (st, LoopExit.finished)
  | txt :: rest, idx, st =>
    if observedCancel cancelSince (2 * idx) then (st, LoopExit.brokeCancel)
    else if (jsTrim txt).isEmpty then
      genLoop synth cancelSince firstPage maxChars rest (idx + 1)
        { st with progress := st.progress + 1 }
    else
      let chunks := calculateChunks maxChars txt
      let st1 : GenState := { st with calls := st.calls ++ chunks }
      match allSynth synth chunks with
      | Except.error msg => (st1, LoopExit.threw msg (2 * idx + 1))
      | Except.ok payloads =>
        if observedCancel cancelSince (2 * idx + 1) then (st1, LoopExit.brokeCancel)
        else if payloads.isEmpty then
          genLoop synth cancelSince firstPage maxChars rest (idx + 1)
            { st1 with progress := st1.progress + 1 }
        else
          let seg : Segment :=
            { text := txt, audio := payloads,
              pageFrom := firstPage + idx, pageTo := firstPage + idx }
          genLoop synth cancelSince firstPage maxChars rest (idx + 1)
            { st1 with
              segments := st1.segments ++ [seg],
              autoplay := if firstPage + idx = firstPage then some seg else st1.autoplay,
              progress := st1.progress + 1 }

/-- Result of one `handleGenerate` run.  `progress`/`total` are the values the
generation status reached before the finally-block reset; `error` is the last
value passed to `setError` (the red error banner), `none` when it was left
cleared. -/
structure GenResult where
  segments : List Segment
  progress : Nat
  total : Nat
  calls : List (List Char)
  autoplay : Option Segment
  error : Option String
deriving DecidableEq

/-- The message `handleGenerate`'s finally block passes to `setError` when the
cancellation flag is set (src/unnamed/part_002 lines 230-236). -/
def cancelMessage : String := "Audio generation was cancelled by the user."

/-- `handleGenerate` (src/unnamed/part_002 lines 145-237): range validation,
the page loop over pages `fromPage..toPage` (1-based), and the catch/finally
error reporting. -/
def runGenerate (pages : List (List Char)) (fromPage toPage : Nat)
    (synth : List Char → Except String Nat) (cancelSince : Option Nat)
    (maxChars : Nat) : GenResult :=
  if fromPage > toPage ∨ fromPage < 1 ∨ pages.length < toPage then
    { segments := [], progress := 0, total := 0, calls := [], autoplay := none,
      error := some "Invalid page range." }
  else
    let texts := (pages.drop (fromPage - 1)).take (toPage - fromPage + 1)
    let run := genLoop synth cancelSince fromPage maxChars texts 0
      { segments := [], progress := 0, calls := [], autoplay := none }
    { segments := run.1.segments, progress := run.1.progress,
      total := toPage - fromPage + 1, calls := run.1.calls,
      autoplay := run.1.autoplay,
      error :=
        match run.2 with
        | LoopExit.finished =>
          if observedCancel cancelSince (2 * texts.length) then some cancelMessage
          else none
        | LoopExit.brokeCancel => some cancelMessage
        | LoopExit.threw msg cp =>
          if observedCancel cancelSince cp then some cancelMessage else some msg }

/-! ### Derived closed forms used to state run-level properties -/

/-- The segment a fully processed page contributes: none when its text is
empty/whitespace-only or its synthesis batch fails or is empty, otherwise the
page-tagged segment built from the chunk payloads in order. -/
def pageSegment (synth : List Char → Except String Nat) (maxChars firstPage idx : Nat)
    (txt : List Char) : Option Segment :=
  if (jsTrim txt).isEmpty then none
  else
    match allSynth synth (calculateChunks maxChars txt) with
    | Except.error _ => none
    | Except.ok [] => none
    | Except.ok payloads =>
      some { text := txt, audio := payloads,
             pageFrom := firstPage + idx, pageTo := firstPage + idx }

/-- The playlist suffix a run appends when every processed page's batch
succeeds. -/
def expectedSegments (synth : List Char → Except String Nat)
    (maxChars firstPage : Nat) : List (List Char) → Nat → List Segment
  | [], _ => []
  | txt :: rest, idx =>
    (pageSegment synth maxChars firstPage idx txt).toList ++
      expectedSegments synth maxChars firstPage rest (idx + 1)

/-- The synthesis calls a fully successful run issues, in call order. -/
def expectedCalls (maxChars : Nat) : List (List Char) → List (List Char)
  | [] => []
  | txt :: rest =>
    (if (jsTrim txt).isEmpty then [] else calculateChunks maxChars txt) ++
      expectedCalls maxChars rest

/-! ## Chunker lemmas -/

theorem jsTrim_eq_nil_iff (s : List Char) : jsTrim s = [] ↔ ∀ c ∈ s, jsWS c := by
  unfold jsTrim
  rw [List.reverse_eq_nil_iff, List.dropWhile_eq_nil_iff]
  simp only [List.mem_reverse]
  constructor
  · intro h c hc
    have hmem : c ∈ s.takeWhile jsWS ++ s.dropWhile jsWS := by
      rw [List.takeWhile_append_dropWhile]; exact hc
    rcases List.mem_append.mp hmem with h1 | h2
    · exact List.mem_takeWhile_imp h1
    · exact h c h2
  · intro h x hx
    exact h x ((List.dropWhile_sublist _).subset hx)

theorem splitWalk_flatten_sublist (rest : List Char) :
    ∀ prev cur skip,
      List.Sublist (splitWalk prev cur skip rest).flatten (cur.reverse ++ rest) := by
  induction rest with
  | nil => intro prev cur skip; simp [splitWalk]
  | cons c rest ih =>
    intro prev cur skip
    cases skip with
    | true =>
      by_cases hws : jsWS c
      · simp only [splitWalk, hws, if_true, if_pos]
        exact (ih (some c) cur true).trans
          ((List.sublist_cons_self c rest).append_left cur.reverse)
      · simp only [splitWalk, hws, Bool.false_eq_true, if_false, if_true]
        have := ih (some c) (c :: cur) false
        simpa [List.append_assoc] using this
    | false =>
      by_cases hb : prevBoundary prev
      · by_cases hws : jsWS c
        · simp only [splitWalk, hb, hws, if_true, Bool.false_eq_true, if_false,
            List.flatten_cons]
          exact ((ih (some c) [] true).trans (List.sublist_cons_self c rest)).append_left
            cur.reverse
        · by_cases hemp : cur.isEmpty
          · simp only [splitWalk, hb, hws, hemp, if_true, Bool.false_eq_true, if_false]
            have := ih (some c) (c :: cur) false
            simpa [List.append_assoc] using this
          · simp only [splitWalk, hb, hws, hemp, if_true, Bool.false_eq_true, if_false,
              List.flatten_cons]
            have := ih (some c) [c] false
            simp only [List.reverse_cons, List.reverse_nil, List.nil_append] at this
            exact this.append_left cur.reverse
      · simp only [splitWalk, hb, Bool.false_eq_true, if_false]
        have := ih (some c) (c :: cur) false
        simpa [List.append_assoc] using this

theorem splitWalk_flatten_filter (rest : List Char) :
    ∀ prev cur skip,
      ((splitWalk prev cur skip rest).flatten.filter fun c => !jsWS c) =
        ((cur.reverse ++ rest).filter fun c => !jsWS c) := by
  induction rest with
  | nil => intro prev cur skip; simp [splitWalk]
  | cons c rest ih =>
    intro prev cur skip
    cases skip with
    | true =>
      by_cases hws : jsWS c
      · simp only [splitWalk, hws, if_true, if_pos]
        rw [ih (some c) cur true]
        simp [List.filter_append, List.filter_cons, hws]
      · simp only [splitWalk, hws, Bool.false_eq_true, if_false, if_true]
        rw [ih (some c) (c :: cur) false]
        simp [List.filter_append, List.filter_cons, hws, List.append_assoc]
    | false =>
      by_cases hb : prevBoundary prev
      · by_cases hws : jsWS c
        · simp only [splitWalk, hb, hws, if_true, Bool.false_eq_true, if_false,
            List.flatten_cons]
          rw [List.filter_append, ih (some c) [] true]
          simp [List.filter_append, List.filter_cons, hws]
        · by_cases hemp : cur.isEmpty
          · simp only [splitWalk, hb, hws, hemp, if_true, Bool.false_eq_true, if_false]
            rw [ih (some c) (c :: cur) false]
            simp [List.filter_append, List.filter_cons, hws, List.append_assoc]
          · simp only [splitWalk, hb, hws, hemp, if_true, Bool.false_eq_true, if_false,
              List.flatten_cons]
            rw [List.filter_append, ih (some c) [c] false]
            simp [List.filter_append, List.filter_cons, hws]
      · simp only [splitWalk, hb, Bool.false_eq_true, if_false]
        rw [ih (some c) (c :: cur) false]
        simp [List.filter_append, List.filter_cons, List.append_assoc]

theorem flatten_filter_sublist (p : List Char → Bool) (l : List (List Char)) :
    List.Sublist (l.filter p).flatten l.flatten := by
  induction l with
  | nil => simp
  | cons x l ih =>
    by_cases hp : p x
    · simpa [List.filter_cons, hp] using ih.append_left x
    · simp only [List.filter_cons, hp, Bool.false_eq_true, if_false, List.flatten_cons]
      exact ih.trans (List.sublist_append_right x l.flatten)

theorem flatten_filter_ws (p : List Char → Bool) (l : List (List Char))
    (h : ∀ s ∈ l, p s = false → ∀ c ∈ s, jsWS c) :
    ((l.filter p).flatten.filter fun c => !jsWS c) =
      (l.flatten.filter fun c => !jsWS c) := by
  induction l with
  | nil => simp
  | cons x l ih =>
    have ih' := ih fun s hs => h s (List.mem_cons_of_mem x hs)
    by_cases hp : p x
    · simp [List.filter_cons, hp, List.filter_append, ih']
    · have hx : ∀ c ∈ x, jsWS c := h x (List.mem_cons_self x l) (by simpa using hp)
      have hxnil : (x.filter fun c => !jsWS c) = [] :=
        List.filter_eq_nil_iff.mpr fun c hc => by simp [hx c hc]
      simp [List.filter_cons, hp, List.filter_append, ih', hxnil]

theorem getSentences_flatten_sublist (t : List Char) :
    List.Sublist (getSentencesFromText t).flatten t := by
  unfold getSentencesFromText
  split
  · simp
  · exact (flatten_filter_sublist _ _).trans
      (by simpa using splitWalk_flatten_sublist t none [] false)

theorem getSentences_flatten_filter (t : List Char) :
    ((getSentencesFromText t).flatten.filter fun c => !jsWS c) =
      (t.filter fun c => !jsWS c) := by
  unfold getSentencesFromText
  split
  · rename_i hguard
    have hws : ∀ c ∈ t, jsWS c := by
      rcases Bool.or_eq_true_iff.mp hguard with h | h
      · intro c hc
        rw [List.isEmpty_iff.mp h] at hc
        cases hc
      · exact (jsTrim_eq_nil_iff t).mp (List.isEmpty_iff.mp h)
    simp only [List.flatten_nil, List.filter_nil]
    exact (List.filter_eq_nil_iff.mpr fun c hc => by simp [hws c hc]).symm
  · rw [flatten_filter_ws]
    · simpa using splitWalk_flatten_filter t none [] false
    · intro s _ hps c hc
      have h1 : s.isEmpty = true ∨ (jsTrim s).isEmpty = true := by
        cases hse : s.isEmpty with
        | true => exact Or.inl rfl
        | false =>
          cases hte : (jsTrim s).isEmpty with
          | true => exact Or.inr rfl
          | false => rw [hse, hte] at hps; simp at hps
      rcases h1 with h | h
      · rw [List.isEmpty_iff.mp h] at hc; cases hc
      · exact (jsTrim_eq_nil_iff s).mp (List.isEmpty_iff.mp h) c hc

theorem hardSplitAux_flatten (m : Nat) (hm : 0 < m) :
    ∀ fuel s, s.length ≤ fuel → (hardSplitAux m fuel s).flatten = s := by
  intro fuel
  induction fuel with
  | zero =>
    intro s hs
    have : s = [] := List.length_eq_zero.mp (Nat.le_zero.mp hs)
    subst this
    rfl
  | succ fuel ih =>
    intro s hs
    match s with
    | [] => rfl
    | c :: s' =>
      simp only [List.length_cons] at hs
      simp only [hardSplitAux, List.flatten_cons]
      rw [ih ((c :: s').drop m) (by rw [List.length_drop, List.length_cons]; omega)]
      exact List.take_append_drop m (c :: s')

theorem hardSplitSentence_flatten (m : Nat) (hm : 0 < m) (s : List Char) :
    (hardSplitSentence m s).flatten = s :=
  hardSplitAux_flatten m hm s.length s le_rfl

theorem flush_flatten (cur : List Char) :
    (if cur.isEmpty then ([] : List (List Char)) else [cur]).flatten = cur := by
  split
  · rename_i h
    rw [List.isEmpty_iff.mp h]
    rfl
  · simp

theorem mem_flush {cur c : List Char}
    (h : c ∈ if cur.isEmpty then ([] : List (List Char)) else [cur]) : c = cur := by
  split at h
  · cases h
  · exact List.mem_singleton.mp h

theorem packLoop_flatten (m : Nat) (hm : 0 < m) :
    ∀ sents cur, (packLoop m sents cur).flatten = cur ++ sents.flatten := by
  intro sents
  induction sents with
  | nil =>
    intro cur
    show (if cur.isEmpty then ([] : List (List Char)) else [cur]).flatten = cur ++ [].flatten
    rw [flush_flatten]
    simp
  | cons sentence rest ih =>
    intro cur
    by_cases h1 : m < sentence.length
    · simp only [packLoop, h1, if_true, List.flatten_append, List.flatten_cons]
      rw [ih [], hardSplitSentence_flatten m hm, flush_flatten]
      try simp [List.append_assoc]
    · by_cases h2 : m < (cur ++ sentence).length
      · simp only [packLoop, h1, h2, if_true, if_false, List.flatten_cons]
        rw [ih sentence]
        try simp [List.append_assoc]
      · simp only [packLoop, h1, h2, if_false]
        rw [ih (cur ++ sentence)]
        try simp [List.append_assoc]

theorem calculateChunks_flatten (m : Nat) (hm : 0 < m) (t : List Char) :
    (calculateChunks m t).flatten = (getSentencesFromText t).flatten := by
  unfold calculateChunks
  split
  · rename_i hguard
    unfold getSentencesFromText
    rw [if_pos (by simp [hguard])]
  · rw [packLoop_flatten m hm]
    simp

theorem calculateChunks_flatten_sublist (m : Nat) (hm : 0 < m) (t : List Char) :
    List.Sublist (calculateChunks m t).flatten t := by
  rw [calculateChunks_flatten m hm]
  exact getSentences_flatten_sublist t

theorem calculateChunks_flatten_filter (m : Nat) (hm : 0 < m) (t : List Char) :
    ((calculateChunks m t).flatten.filter fun c => !jsWS c) =
      (t.filter fun c => !jsWS c) := by
  rw [calculateChunks_flatten m hm]
  exact getSentences_flatten_filter t

theorem calculateChunks_ne_nil (m : Nat) (hm : 0 < m) (t : List Char)
    (ht : jsTrim t ≠ []) : calculateChunks m t ≠ [] := by
  intro hnil
  have hflt := calculateChunks_flatten_filter m hm t
  rw [hnil] at hflt
  simp only [List.flatten_nil, List.filter_nil] at hflt
  exact ht ((jsTrim_eq_nil_iff t).mpr fun c hc => by
    by_contra hcw
    have : c ∈ t.filter fun c => !jsWS c := List.mem_filter.mpr ⟨hc, by simp [hcw]⟩
    rw [← hflt] at this
    cases this)

theorem hardSplitAux_mem_length (m : Nat) :
    ∀ fuel s c, c ∈ hardSplitAux m fuel s → c.length ≤ m := by
  intro fuel
  induction fuel with
  | zero => intro s c hc; simp [hardSplitAux] at hc
  | succ fuel ih =>
    intro s c hc
    match s with
    | [] => simp [hardSplitAux] at hc
    | x :: s' =>
      rcases List.mem_cons.mp hc with h | h
      · rw [h]
        simp [List.length_take]
      · exact ih _ c h

theorem packLoop_mem_length (m : Nat) :
    ∀ sents cur c, cur.length ≤ m → c ∈ packLoop m sents cur → c.length ≤ m := by
  intro sents
  induction sents with
  | nil =>
    intro cur c hcur hc
    have : c ∈ if cur.isEmpty then ([] : List (List Char)) else [cur] := hc
    rw [mem_flush this]
    exact hcur
  | cons sentence rest ih =>
    intro cur c hcur hc
    by_cases h1 : m < sentence.length
    · simp only [packLoop, h1, if_true] at hc
      rcases List.mem_append.mp hc with h | h
      · rcases List.mem_append.mp h with h' | h'
        · rw [mem_flush h']
          exact hcur
        · exact hardSplitAux_mem_length m _ _ c h'
      · exact ih [] c (Nat.zero_le m) h
    · by_cases h2 : m < (cur ++ sentence).length
      · simp only [packLoop, h1, h2, if_true, if_false] at hc
        rcases List.mem_cons.mp hc with h | h
        · rw [h]; exact hcur
        · exact ih sentence c (Nat.le_of_not_lt h1) h
      · simp only [packLoop, h1, h2, if_false] at hc
        exact ih (cur ++ sentence) c (Nat.le_of_not_lt h2) hc

theorem calculateChunks_mem_length (m : Nat) (t : List Char) :
    ∀ c ∈ calculateChunks m t, c.length ≤ m := by
  intro c hc
  unfold calculateChunks at hc
  split at hc
  · cases hc
  · exact packLoop_mem_length m _ [] c (Nat.zero_le m) hc

/-! ## Pipeline lemmas -/

theorem allSynth_ok_length (synth : List Char → Except String Nat) :
    ∀ l vs, allSynth synth l = Except.ok vs → vs.length = l.length := by
  intro l
  induction l with
  | nil =>
    intro vs h
    simp only [allSynth] at h
    cases h
    rfl
  | cons c rest ih =>
    intro vs h
    simp only [allSynth] at h
    cases hc : synth c with
    | error e => rw [hc] at h; cases h
    | ok v =>
      rw [hc] at h
      cases hr : allSynth synth rest with
      | error e => rw [hr] at h; cases h
      | ok ws =>
        rw [hr] at h
        cases h
        simp [ih ws hr]

theorem genLoop_autoplay_of_pos (synth : List Char → Except String Nat)
    (cs : Option Nat) (f m : Nat) :
    ∀ texts idx st, 0 < idx →
      ((genLoop synth cs f m texts idx st).1).autoplay = st.autoplay := by
  intro texts
  induction texts with
  | nil => intro idx st _; rfl
  | cons txt rest ih =>
    intro idx st hidx
    simp only [genLoop]
    split
    · rfl
    split
    · exact ih (idx + 1) _ (Nat.succ_pos idx)
    split
    · rfl
    split
    · rfl
    split
    · exact ih (idx + 1) _ (Nat.succ_pos idx)
    · rw [ih (idx + 1) _ (Nat.succ_pos idx)]
      have hne : ¬ f + idx = f := by omega
      simp [hne]

theorem genLoop_segments_grow (synth : List Char → Except String Nat)
    (cs : Option Nat) (f m : Nat) :
    ∀ texts idx st, ∃ tl,
      ((genLoop synth cs f m texts idx st).1).segments = st.segments ++ tl := by
  intro texts
  induction texts with
  | nil => intro idx st; exact ⟨[], by simp [genLoop]⟩
  | cons txt rest ih =>
    intro idx st
    simp only [genLoop]
    split
    · exact ⟨[], by simp⟩
    split
    · exact ih (idx + 1) _
    split
    · exact ⟨[], by simp⟩
    rename_i payloads heq
    split
    · exact ⟨[], by simp⟩
    split
    · exact ih (idx + 1) _
    · obtain ⟨tl, htl⟩ := ih (idx + 1)
        (GenState.mk
          (st.segments ++ [Segment.mk txt payloads (f + idx) (f + idx)])
          (st.progress + 1)
          (st.calls ++ calculateChunks m txt)
          (if f + idx = f then some (Segment.mk txt payloads (f + idx) (f + idx))
           else st.autoplay))
      refine ⟨[Segment.mk txt payloads (f + idx) (f + idx)] ++ tl, ?_⟩
      rw [← List.append_assoc]
      exact htl

theorem genLoop_mem_pageFrom (synth : List Char → Except String Nat)
    (cs : Option Nat) (f m : Nat) :
    ∀ texts idx st sg, sg ∈ ((genLoop synth cs f m texts idx st).1).segments →
      sg ∈ st.segments ∨ f + idx ≤ sg.pageFrom := by
  intro texts
  induction texts with
  | nil => intro idx st sg h; exact Or.inl h
  | cons txt rest ih =>
    intro idx st sg h
    simp only [genLoop] at h
    split at h
    · exact Or.inl h
    split at h
    · rcases ih (idx + 1) _ sg h with h' | h'
      · exact Or.inl h'
      · exact Or.inr (by omega)
    split at h
    · exact Or.inl h
    rename_i payloads heq
    split at h
    · exact Or.inl h
    split at h
    · rcases ih (idx + 1) _ sg h with h' | h'
      · exact Or.inl h'
      · exact Or.inr (by omega)
    · rcases ih (idx + 1) _ sg h with h' | h'
      · rcases List.mem_append.mp h' with h'' | h''
        · exact Or.inl h''
        · have hsg := List.mem_singleton.mp h''
          subst hsg
          exact Or.inr (by simp)
      · exact Or.inr (by omega)

theorem genLoop_none_success (synth : List Char → Except String Nat) (f m : Nat) :
    ∀ texts idx st,
      (∀ txt ∈ texts, (jsTrim txt).isEmpty = false →
        ∃ vs, allSynth synth (calculateChunks m txt) = Except.ok vs) →
      ((genLoop synth none f m texts idx st).1).segments =
          st.segments ++ expectedSegments synth m f texts idx ∧
        ((genLoop synth none f m texts idx st).1).progress = st.progress + texts.length ∧
        ((genLoop synth none f m texts idx st).1).calls = st.calls ++ expectedCalls m texts ∧
        (genLoop synth none f m texts idx st).2 = LoopExit.finished := by
  intro texts
  induction texts with
  | nil =>
    intro idx st _
    exact ⟨by simp [genLoop, expectedSegments], by simp [genLoop],
      by simp [genLoop, expectedCalls], rfl⟩
  | cons txt rest ih =>
    intro idx st hok
    have hok' : ∀ t ∈ rest, (jsTrim t).isEmpty = false →
        ∃ vs, allSynth synth (calculateChunks m t) = Except.ok vs :=
      fun t ht he => hok t (List.mem_cons_of_mem txt ht) he
    simp only [genLoop]
    rw [if_neg (by simp [observedCancel])]
    by_cases hte : (jsTrim txt).isEmpty
    · rw [if_pos hte]
      obtain ⟨h1, h2, h3, h4⟩ := ih (idx + 1) _ hok'
      refine ⟨?_, ?_, ?_, h4⟩
      · rw [h1]; simp [expectedSegments, pageSegment, hte]
      · rw [h2]; simp [List.length_cons]; omega
      · rw [h3]; simp [expectedCalls, hte]
    · have hte' : (jsTrim txt).isEmpty = false := by
        cases h : (jsTrim txt).isEmpty
        · rfl
        · exact absurd h hte
      rw [if_neg hte]
      obtain ⟨vs, hvs⟩ := hok txt (List.mem_cons_self txt rest) hte'
      split
      · rename_i msg heq
        rw [hvs] at heq
        cases heq
      rename_i payloads heq
      have hpv : payloads = vs := by
        rw [hvs] at heq
        cases heq
        rfl
      subst hpv
      rw [if_neg (by simp [observedCancel])]
      by_cases hpe : payloads.isEmpty
      · rw [if_pos hpe]
        obtain ⟨h1, h2, h3, h4⟩ := ih (idx + 1) _ hok'
        refine ⟨?_, ?_, ?_, h4⟩
        · rw [h1]
          have hpl : payloads = [] := List.isEmpty_iff.mp hpe
          subst hpl
          simp [expectedSegments, pageSegment, hte', heq]
        · rw [h2]; simp [List.length_cons]; omega
        · rw [h3]; simp [expectedCalls, hte', List.append_assoc]
      · rw [if_neg hpe]
        obtain ⟨h1, h2, h3, h4⟩ := ih (idx + 1) _ hok'
        refine ⟨?_, ?_, ?_, h4⟩
        · rw [h1]
          rcases payloads with _ | ⟨v, vs'⟩
          · simp at hpe
          · simp [expectedSegments, pageSegment, hte', heq, List.append_assoc]
        · rw [h2]; simp [List.length_cons]; omega
        · rw [h3]; simp [expectedCalls, hte', List.append_assoc]

theorem genLoop_none_fail (synth : List Char → Except String Nat) (f m : Nat) :
    ∀ texts idx st i txt msg,
      texts.get? i = some txt →
      (∀ j tj, j < i → texts.get? j = some tj →
        (jsTrim tj).isEmpty = true ∨
          ∃ vs, allSynth synth (calculateChunks m tj) = Except.ok vs) →
      (jsTrim txt).isEmpty = false →
      allSynth synth (calculateChunks m txt) = Except.error msg →
      ((genLoop synth none f m texts idx st).1).segments =
          st.segments ++ expectedSegments synth m f (texts.take i) idx ∧
        (genLoop synth none f m texts idx st).2 =
          LoopExit.threw msg (2 * (idx + i) + 1) := by
  intro texts
  induction texts with
  | nil => intro idx st i txt msg hget _ _ _; simp at hget
  | cons txt0 rest ih =>
    intro idx st i txt msg hget hprev htrim herr
    cases i with
    | zero =>
      have h0 : txt0 = txt := by simpa using hget
      subst h0
      simp only [genLoop]
      rw [if_neg (by simp [observedCancel])]
      rw [if_neg (by simp [htrim])]
      split
      · rename_i msg' heq
        rw [herr] at heq
        cases heq
        exact ⟨by simp [expectedSegments], by simp⟩
      · rename_i payloads heq
        rw [herr] at heq
        cases heq
    | succ i' =>
      have hget' : rest.get? i' = some txt := by simpa using hget
      have hj0 := hprev 0 txt0 (Nat.succ_pos i') (by simp)
      have hprev' : ∀ j tj, j < i' → rest.get? j = some tj →
          (jsTrim tj).isEmpty = true ∨
            ∃ vs, allSynth synth (calculateChunks m tj) = Except.ok vs :=
        fun j tj hj hg => hprev (j + 1) tj (by omega) (by simpa using hg)
      simp only [genLoop]
      rw [if_neg (by simp [observedCancel])]
      by_cases hte : (jsTrim txt0).isEmpty
      · rw [if_pos hte]
        obtain ⟨h1, h2⟩ := ih (idx + 1) _ i' txt msg hget' hprev' htrim herr
        constructor
        · rw [h1]
          simp [expectedSegments, pageSegment, hte, List.take_succ_cons]
        · rw [h2]
          congr 1
          omega
      · have hte' : (jsTrim txt0).isEmpty = false := by
          cases h : (jsTrim txt0).isEmpty
          · rfl
          · exact absurd h hte
        rcases hj0 with h | ⟨vs, hvs⟩
        · rw [h] at hte'; cases hte'
        rw [if_neg hte]
        split
        · rename_i msg' heq
          rw [hvs] at heq
          cases heq
        rename_i payloads heq
        have hpv : payloads = vs := by
          rw [hvs] at heq
          cases heq
          rfl
        subst hpv
        rw [if_neg (by simp [observedCancel])]
        by_cases hpe : payloads.isEmpty
        · rw [if_pos hpe]
          obtain ⟨h1, h2⟩ := ih (idx + 1) _ i' txt msg hget' hprev' htrim herr
          constructor
          · rw [h1]
            have hpl : payloads = [] := List.isEmpty_iff.mp hpe
            subst hpl
            simp [expectedSegments, pageSegment, hte', heq, List.take_succ_cons]
          · rw [h2]; congr 1; omega
        · rw [if_neg hpe]
          obtain ⟨h1, h2⟩ := ih (idx + 1) _ i' txt msg hget' hprev' htrim herr
          constructor
          · rw [h1]
            rcases payloads with _ | ⟨v, vs'⟩
            · simp at hpe
            · simp [expectedSegments, pageSegment, hte', heq, List.take_succ_cons,
                List.append_assoc]
          · rw [h2]; congr 1; omega

theorem genLoop_cancel_segments (synth : List Char → Except String Nat) (f m : Nat) :
    ∀ texts idx st n,
      (∀ txt ∈ texts, (jsTrim txt).isEmpty = false →
        ∃ vs, allSynth synth (calculateChunks m txt) = Except.ok vs) →
      ((genLoop synth (some n) f m texts idx st).1).segments =
          st.segments ++ expectedSegments synth m f (texts.take (n / 2 - idx)) idx ∧
        ((genLoop synth (some n) f m texts idx st).2 = LoopExit.brokeCancel ∨
          (genLoop synth (some n) f m texts idx st).2 = LoopExit.finished) := by
  intro texts
  induction texts with
  | nil =>
    intro idx st n _
    exact ⟨by simp [genLoop, expectedSegments], Or.inr rfl⟩
  | cons txt rest ih =>
    intro idx st n hok
    have hok' : ∀ t ∈ rest, (jsTrim t).isEmpty = false →
        ∃ vs, allSynth synth (calculateChunks m t) = Except.ok vs :=
      fun t ht he => hok t (List.mem_cons_of_mem txt ht) he
    simp only [genLoop]
    by_cases hc1 : n ≤ 2 * idx
    · rw [if_pos (by simp [observedCancel, hc1])]
      refine ⟨?_, Or.inl rfl⟩
      have hz : n / 2 - idx = 0 := by omega
      rw [hz]
      simp [expectedSegments]
    · rw [if_neg (by simp [observedCancel]; omega)]
      by_cases hte : (jsTrim txt).isEmpty
      · rw [if_pos hte]
        obtain ⟨h1, h2⟩ := ih (idx + 1) _ n hok'
        refine ⟨?_, h2⟩
        rw [h1]
        rcases hk : n / 2 - idx with _ | k
        · have hk' : n / 2 - (idx + 1) = 0 := by omega
          rw [hk']
          simp [expectedSegments]
        · have hk' : n / 2 - (idx + 1) = k := by omega
          rw [hk']
          simp [expectedSegments, pageSegment, hte, List.take_succ_cons]
      · have hte' : (jsTrim txt).isEmpty = false := by
          cases h : (jsTrim txt).isEmpty
          · rfl
          · exact absurd h hte
        rw [if_neg hte]
        obtain ⟨vs, hvs⟩ := hok txt (List.mem_cons_self txt rest) hte'
        split
        · rename_i msg heq
          rw [hvs] at heq
          cases heq
        rename_i payloads heq
        have hpv : payloads = vs := by
          rw [hvs] at heq; cases heq; rfl
        subst hpv
        by_cases hc2 : n ≤ 2 * idx + 1
        · rw [if_pos (by simp [observedCancel, hc2])]
          refine ⟨?_, Or.inl rfl⟩
          have hz : n / 2 - idx = 0 := by omega
          rw [hz]
          simp [expectedSegments]
        · rw [if_neg (by simp [observedCancel]; omega)]
          by_cases hpe : payloads.isEmpty
          · rw [if_pos hpe]
            obtain ⟨h1, h2⟩ := ih (idx + 1) _ n hok'
            refine ⟨?_, h2⟩
            rw [h1]
            rcases hk : n / 2 - idx with _ | k
            · exact absurd hk (by omega)
            · have hk' : n / 2 - (idx + 1) = k := by omega
              rw [hk']
              have hpl : payloads = [] := List.isEmpty_iff.mp hpe
              subst hpl
              simp [expectedSegments, pageSegment, hte', heq, List.take_succ_cons]
          · rw [if_neg hpe]
            obtain ⟨h1, h2⟩ := ih (idx + 1) _ n hok'
            refine ⟨?_, h2⟩
            rw [h1]
            rcases hk : n / 2 - idx with _ | k
            · exact absurd hk (by omega)
            · have hk' : n / 2 - (idx + 1) = k := by omega
              rw [hk']
              rcases payloads with _ | ⟨v, vs'⟩
              · simp at hpe
              · simp [expectedSegments, pageSegment, hte', heq, List.take_succ_cons,
                  List.append_assoc]

theorem pageSegment_eq_some (synth : List Char → Except String Nat)
    (m f idx : Nat) (txt : List Char) (sg : Segment)
    (h : pageSegment synth m f idx txt = some sg) :
    sg.pageFrom = f + idx ∧ sg.pageTo = f + idx := by
  unfold pageSegment at h
  split at h
  · cases h
  · split at h
    · cases h
    · cases h
    · cases h
      exact ⟨rfl, rfl⟩

theorem expectedSegments_mem_pageFrom (synth : List Char → Except String Nat)
    (m f : Nat) :
    ∀ texts idx sg, sg ∈ expectedSegments synth m f texts idx →
      f + idx ≤ sg.pageFrom ∧ sg.pageFrom < f + idx + texts.length := by
  intro texts
  induction texts with
  | nil => intro idx sg h; cases h
  | cons txt rest ih =>
    intro idx sg h
    rcases List.mem_append.mp h with h1 | h2
    · have hps : pageSegment synth m f idx txt = some sg := by
        cases hps : pageSegment synth m f idx txt
        · rw [hps] at h1; cases h1
        · rw [hps] at h1
          simp only [Option.toList_some, List.mem_singleton] at h1
          rw [h1]
      obtain ⟨hpf, _⟩ := pageSegment_eq_some synth m f idx txt sg hps
      rw [hpf]
      simp only [List.length_cons]
      omega
    · obtain ⟨hl, hr⟩ := ih (idx + 1) sg h2
      simp only [List.length_cons]
      omega

/-! ## Claim theorems -/

/-- C1 counterexample: for the text "a. b" and budget 10 no hard split occurs,
yet the concatenation of the returned chunks is "a.b" — the space consumed by
the sentence-split separator is lost, so concatenation does not reconstruct
the input exactly. -/
theorem claim_C1_counterexample :
    (calculateChunks 10 ("a. b".toList)).flatten ≠ "a. b".toList := by decide

/-- C1 (amended): for every text and every maxChars > 0, concatenating the
chunks in order yields the original text with only whitespace characters
removed (the whitespace consumed at sentence-split separators and
whitespace-only units): the concatenation is a subsequence of the text, and
it retains exactly the non-whitespace characters of the text in order. -/
theorem claim_C1 (text : List Char) (maxChars : Nat) (h : 0 < maxChars) :
    List.Sublist (calculateChunks maxChars text).flatten text ∧
      ((calculateChunks maxChars text).flatten.filter fun c => !jsWS c) =
        (text.filter fun c => !jsWS c) :=
  ⟨calculateChunks_flatten_sublist maxChars h text,
    calculateChunks_flatten_filter maxChars h text⟩

/-- C1 witness: the amended reconstruction property evaluated on the concrete
input "a. b" with budget 10. -/
theorem claim_C1_witness :
    0 < 10 ∧
      (List.Sublist (calculateChunks 10 ("a. b".toList)).flatten ("a. b".toList) ∧
        ((calculateChunks 10 ("a. b".toList)).flatten.filter fun c => !jsWS c) =
          (("a. b".toList).filter fun c => !jsWS c)) :=
  ⟨by decide, claim_C1 ("a. b".toList) 10 (by decide)⟩

/-- C7: for every text and every maxChars > 0, every chunk returned by the
chunker has length at most maxChars — in particular every chunk that is not a
hard-split fragment does (hard-split fragments are `take maxChars` slices, so
they satisfy the bound as well). -/
theorem claim_C7 (text : List Char) (maxChars : Nat) (h : 0 < maxChars) :
    ∀ c ∈ calculateChunks maxChars text, c.length ≤ maxChars :=
  fun c hc => calculateChunks_mem_length maxChars text c hc

/-- C7 witness: the chunk-length bound evaluated on a concrete text with an
over-long sentence and budget 5. -/
theorem claim_C7_witness :
    0 < 5 ∧ ∀ c ∈ calculateChunks 5 ("Hello. Wide world.".toList), c.length ≤ 5 :=
  ⟨by decide, claim_C7 ("Hello. Wide world.".toList) 5 (by decide)⟩

/-- C2 counterexample: with anchor 0, offset 0, rate 1 and duration 10, the
position reported at time 2 is 2; immediately after setRate 2 it is 4 — a
discontinuous jump, because the live rate change neither re-anchors the clock
nor folds the elapsed time into the offset. -/
theorem claim_C2_counterexample :
    reportedAt 2 (setRateLive 2
        { segments := [], current := none, isPlaying := true, currentTime := 2,
          duration := 10, rate := 1, startOffset := 0, anchor := 0 }) ≠
      reportedAt 2
        { segments := [], current := none, isPlaying := true, currentTime := 2,
          duration := 10, rate := 1, startOffset := 0, anchor := 0 } := by
  simp only [reportedAt, setRateLive]
  norm_num

/-- C2 (amended): setRate keeps the anchor and accumulated offset, and the
reported position is (now − anchor) · currentRate from the last anchor; hence
when neither report is clamped at the duration, changing the rate mid-playback
shifts the reported position by exactly (now − anchor) · (newRate − oldRate) —
it is continuous only when now equals the anchor or the rate is unchanged. -/
theorem claim_C2 (s : AppState) (now r : ℚ)
    (h1 : s.startOffset + (now - s.anchor) * s.rate ≤ s.duration)
    (h2 : s.startOffset + (now - s.anchor) * r ≤ s.duration) :
    reportedAt now (setRateLive r s) - reportedAt now s =
      (now - s.anchor) * (r - s.rate) := by
  simp only [reportedAt, setRateLive]
  rw [min_eq_left h2, min_eq_left h1]
  ring

/-- C2 witness: the jump formula evaluated at a concrete state (anchor 0,
offset 0, rate 1 → 2, duration 10, now 2). -/
theorem claim_C2_witness :
    ((0 : ℚ) + (2 - 0) * 1 ≤ 10) ∧ ((0 : ℚ) + (2 - 0) * 2 ≤ 10) ∧
      reportedAt 2 (setRateLive 2
          { segments := [], current := none, isPlaying := true, currentTime := 2,
            duration := 10, rate := 1, startOffset := 0, anchor := 0 }) -
        reportedAt 2
          { segments := [], current := none, isPlaying := true, currentTime := 2,
            duration := 10, rate := 1, startOffset := 0, anchor := 0 } =
        (2 - 0) * (2 - 1) :=
  ⟨by norm_num, by norm_num,
    claim_C2
      { segments := [], current := none, isPlaying := true, currentTime := 2,
        duration := 10, rate := 1, startOffset := 0, anchor := 0 } 2 2
      (by norm_num) (by norm_num)⟩

/-- C6 counterexample: seeking to t = 20 while paused on a 10-second segment
reports position 20, not the clamped value 10 — `handleSeek` performs no
clamping. -/
theorem claim_C6_counterexample :
    (handleSeek 0 20
        { segments := [], current := none, isPlaying := false, currentTime := 3,
          duration := 10, rate := 1, startOffset := 3, anchor := 0 }).currentTime ≠
      (10 : ℚ) := by
  simp only [handleSeek]
  norm_num

/-- C6 (amended): seek(t) while paused writes t itself — unclamped — into both
the reported position and the start offset; this agrees with the claimed
clamped value exactly when 0 ≤ t ≤ duration. -/
theorem claim_C6 (now t : ℚ) (s : AppState) (h : s.isPlaying = false) :
    (handleSeek now t s).currentTime = t ∧ (handleSeek now t s).startOffset = t := by
  simp [handleSeek, h]

/-- C6 witness: the paused-seek property evaluated at a concrete state and
t = 7. -/
theorem claim_C6_witness :
    (false = false) ∧
      (handleSeek 0 7
          { segments := [], current := none, isPlaying := false, currentTime := 3,
            duration := 10, rate := 1, startOffset := 3, anchor := 0 }).currentTime = 7 ∧
      (handleSeek 0 7
          { segments := [], current := none, isPlaying := false, currentTime := 3,
            duration := 10, rate := 1, startOffset := 3, anchor := 0 }).startOffset = 7 :=
  ⟨rfl,
    (claim_C6 0 7
      { segments := [], current := none, isPlaying := false, currentTime := 3,
        duration := 10, rate := 1, startOffset := 3, anchor := 0 } rfl).1,
    (claim_C6 0 7
      { segments := [], current := none, isPlaying := false, currentTime := 3,
        duration := 10, rate := 1, startOffset := 3, anchor := 0 } rfl).2⟩

/-- C9 counterexample: requesting play with no segment selected but a
non-empty playlist is not a no-op — the engine selects the first playlist
segment (and starts playing it). -/
theorem claim_C9_counterexample :
    (handleMainPlayPause 0 true
        { segments := [{ id := 0, dur := 5 }], current := none, isPlaying := false,
          currentTime := 0, duration := 0, rate := 1, startOffset := 0,
          anchor := 0 }).current ≠ none := by
  simp [handleMainPlayPause]

/-- C9 (amended): with no segment selected, a play request is a no-op (no
raise, no state change) only when the playlist is empty; when the playlist is
non-empty the engine instead selects the first segment and starts playing
it. -/
theorem claim_C9 (now : ℚ) (b : Bool) (s : AppState) (h : s.current = none) :
    (s.segments = [] → handleMainPlayPause now b s = s) ∧
      (∀ s0 rest, s.segments = s0 :: rest →
        (handleMainPlayPause now b s).current = some s0 ∧
          (handleMainPlayPause now b s).isPlaying = true) := by
  constructor
  · intro hseg
    simp [handleMainPlayPause, h, hseg]
  · intro s0 rest hseg
    simp [handleMainPlayPause, h, hseg]

/-- C9 witness: the amended behaviour evaluated at a concrete state with an
empty playlist (genuine no-op) — hypotheses discharged at `current = none`. -/
theorem claim_C9_witness :
    (([] : List Seg) = [] →
      handleMainPlayPause 0 true
          { segments := [], current := none, isPlaying := false, currentTime := 0,
            duration := 0, rate := 1, startOffset := 0, anchor := 0 } =
        { segments := [], current := none, isPlaying := false, currentTime := 0,
          duration := 0, rate := 1, startOffset := 0, anchor := 0 }) ∧
      (∀ s0 rest, ([] : List Seg) = s0 :: rest →
        (handleMainPlayPause 0 true
            { segments := [], current := none, isPlaying := false, currentTime := 0,
              duration := 0, rate := 1, startOffset := 0, anchor := 0 }).current =
            some s0 ∧
          (handleMainPlayPause 0 true
              { segments := [], current := none, isPlaying := false, currentTime := 0,
                duration := 0, rate := 1, startOffset := 0, anchor := 0 }).isPlaying =
            true) :=
  claim_C9 0 true
    { segments := [], current := none, isPlaying := false, currentTime := 0,
      duration := 0, rate := 1, startOffset := 0, anchor := 0 } rfl

/-- C3 counterexample: a natural end within the 0.1 s epsilon but short of the
duration (final time 9.95 on a 10 s last segment) leaves the engine paused at
position 9.95, not pinned at the duration 10 as the claim states. -/
theorem claim_C3_counterexample :
    ((10 : ℚ) - 1 / 10 ≤ 0 + (199 / 20 - 0) * 1) ∧
      (onEnded (199 / 20)
          { segments := [{ id := 0, dur := 10 }], current := some { id := 0, dur := 10 },
            isPlaying := true, currentTime := 0, duration := 10, rate := 1,
            startOffset := 0, anchor := 0 }).isPlaying = false ∧
      (onEnded (199 / 20)
          { segments := [{ id := 0, dur := 10 }], current := some { id := 0, dur := 10 },
            isPlaying := true, currentTime := 0, duration := 10, rate := 1,
            startOffset := 0, anchor := 0 }).startOffset ≠ (10 : ℚ) := by
  have hmain : onEnded (199 / 20)
      { segments := [{ id := 0, dur := 10 }], current := some { id := 0, dur := 10 },
        isPlaying := true, currentTime := 0, duration := 10, rate := 1,
        startOffset := 0, anchor := 0 } =
      pauseAt (199 / 20)
        { segments := [{ id := 0, dur := 10 }], current := some { id := 0, dur := 10 },
          isPlaying := true, currentTime := 0, duration := 10, rate := 1,
          startOffset := 0, anchor := 0 } := by
    simp only [onEnded]
    rw [if_pos (by norm_num)]
    rfl
  refine ⟨by norm_num, ?_, ?_⟩
  · rw [hmain]; rfl
  · rw [hmain]
    simp only [pauseAt]
    rw [min_eq_left (by norm_num)]
    norm_num

/-- C3 (amended): on natural end (final time within 0.1 s of the duration as
the source reports completion): if a next playlist segment exists it is
auto-selected with isPlaying still true and offset reset; if the current
segment is last, the engine pauses with position pinned at the final time
clamped to the duration — within 0.1 s of the duration and never beyond it,
but equal to the duration only when the final time reaches it.  A user pause
mid-segment never changes the selected segment. -/
theorem claim_C3 (s : AppState) (now : ℚ) (i : Nat)
    (hplay : s.isPlaying = true)
    (hidx : segIndex s.segments s.current = some i)
    (hnat : s.duration - 1 / 10 ≤ s.startOffset + (now - s.anchor) * s.rate) :
    (∀ nxt, s.segments[i + 1]? = some nxt →
      (onEnded now s).current = some nxt ∧ (onEnded now s).isPlaying = true ∧
        (onEnded now s).startOffset = 0 ∧ (onEnded now s).currentTime = 0 ∧
        (onEnded now s).duration = nxt.dur) ∧
      (s.segments[i + 1]? = none →
        (onEnded now s).isPlaying = false ∧ (onEnded now s).current = s.current ∧
          (onEnded now s).startOffset =
            min (s.startOffset + (now - s.anchor) * s.rate) s.duration ∧
          s.duration - 1 / 10 ≤ (onEnded now s).startOffset ∧
          (onEnded now s).startOffset ≤ s.duration) ∧
      ((pauseAt now s).current = s.current ∧ (pauseAt now s).isPlaying = false) := by
  have hoe : onEnded now s = handleTrackEnd now s := by
    simp only [onEnded]
    rw [if_pos hnat]
  refine ⟨?_, ?_, ⟨rfl, rfl⟩⟩
  · intro nxt hn
    rw [hoe]
    simp [handleTrackEnd, hidx, hn, hplay]
  · intro hn
    rw [hoe]
    simp only [handleTrackEnd, hidx, hn]
    refine ⟨rfl, rfl, rfl, ?_, ?_⟩
    · exact le_min hnat (by linarith)
    · exact min_le_right _ _

/-- C3 witness: the natural-end transition evaluated on a concrete two-segment
playlist with the first segment playing and final time 199/20 on duration
10. -/
theorem claim_C3_witness :
    (∀ nxt, ([{ id := 0, dur := 10 }, { id := 1, dur := 7 }] : List Seg)[1]? =
        some nxt →
      (onEnded (199 / 20)
          { segments := [{ id := 0, dur := 10 }, { id := 1, dur := 7 }],
            current := some { id := 0, dur := 10 }, isPlaying := true,
            currentTime := 0, duration := 10, rate := 1, startOffset := 0,
            anchor := 0 }).current = some nxt ∧
        (onEnded (199 / 20)
            { segments := [{ id := 0, dur := 10 }, { id := 1, dur := 7 }],
              current := some { id := 0, dur := 10 }, isPlaying := true,
              currentTime := 0, duration := 10, rate := 1, startOffset := 0,
              anchor := 0 }).isPlaying = true ∧
        (onEnded (199 / 20)
            { segments := [{ id := 0, dur := 10 }, { id := 1, dur := 7 }],
              current := some { id := 0, dur := 10 }, isPlaying := true,
              currentTime := 0, duration := 10, rate := 1, startOffset := 0,
              anchor := 0 }).startOffset = 0 ∧
        (onEnded (199 / 20)
            { segments := [{ id := 0, dur := 10 }, { id := 1, dur := 7 }],
              current := some { id := 0, dur := 10 }, isPlaying := true,
              currentTime := 0, duration := 10, rate := 1, startOffset := 0,
              anchor := 0 }).currentTime = 0 ∧
        (onEnded (199 / 20)
            { segments := [{ id := 0, dur := 10 }, { id := 1, dur := 7 }],
              current := some { id := 0, dur := 10 }, isPlaying := true,
              currentTime := 0, duration := 10, rate := 1, startOffset := 0,
              anchor := 0 }).duration = nxt.dur) ∧
      (([{ id := 0, dur := 10 }, { id := 1, dur := 7 }] : List Seg)[1]? = none →
        (onEnded (199 / 20)
            { segments := [{ id := 0, dur := 10 }, { id := 1, dur := 7 }],
              current := some { id := 0, dur := 10 }, isPlaying := true,
              currentTime := 0, duration := 10, rate := 1, startOffset := 0,
              anchor := 0 }).isPlaying = false ∧
          (onEnded (199 / 20)
              { segments := [{ id := 0, dur := 10 }, { id := 1, dur := 7 }],
                current := some { id := 0, dur := 10 }, isPlaying := true,
                currentTime := 0, duration := 10, rate := 1, startOffset := 0,
                anchor := 0 }).current = some { id := 0, dur := 10 } ∧
          (onEnded (199 / 20)
              { segments := [{ id := 0, dur := 10 }, { id := 1, dur := 7 }],
                current := some { id := 0, dur := 10 }, isPlaying := true,
                currentTime := 0, duration := 10, rate := 1, startOffset := 0,
                anchor := 0 }).startOffset =
            min ((0 : ℚ) + (199 / 20 - 0) * 1) 10 ∧
          (10 : ℚ) - 1 / 10 ≤
            (onEnded (199 / 20)
                { segments := [{ id := 0, dur := 10 }, { id := 1, dur := 7 }],
                  current := some { id := 0, dur := 10 }, isPlaying := true,
                  currentTime := 0, duration := 10, rate := 1, startOffset := 0,
                  anchor := 0 }).startOffset ∧
          (onEnded (199 / 20)
              { segments := [{ id := 0, dur := 10 }, { id := 1, dur := 7 }],
                current := some { id := 0, dur := 10 }, isPlaying := true,
                currentTime := 0, duration := 10, rate := 1, startOffset := 0,
                anchor := 0 }).startOffset ≤ 10) ∧
      ((pauseAt (199 / 20)
          { segments := [{ id := 0, dur := 10 }, { id := 1, dur := 7 }],
            current := some { id := 0, dur := 10 }, isPlaying := true,
            currentTime := 0, duration := 10, rate := 1, startOffset := 0,
            anchor := 0 }).current = some { id := 0, dur := 10 } ∧
        (pauseAt (199 / 20)
            { segments := [{ id := 0, dur := 10 }, { id := 1, dur := 7 }],
              current := some { id := 0, dur := 10 }, isPlaying := true,
              currentTime := 0, duration := 10, rate := 1, startOffset := 0,
              anchor := 0 }).isPlaying = false) :=
  claim_C3
    { segments := [{ id := 0, dur := 10 }, { id := 1, dur := 7 }],
      current := some { id := 0, dur := 10 }, isPlaying := true, currentTime := 0,
      duration := 10, rate := 1, startOffset := 0, anchor := 0 }
    (199 / 20) 0 rfl rfl (by norm_num)

theorem genLoop_head_stable (synth : List Char → Except String Nat)
    (cs : Option Nat) (f m : Nat) (texts : List (List Char)) (idx : Nat)
    (st : GenState) (sg : Segment) (hh : st.segments.head? = some sg) :
    ((genLoop synth cs f m texts idx st).1).segments.head? = some sg := by
  obtain ⟨tl, htl⟩ := genLoop_segments_grow synth cs f m texts idx st
  rw [htl]
  cases hs : st.segments with
  | nil => rw [hs] at hh; cases hh
  | cons a l =>
    rw [hs] at hh
    simpa using hh

theorem genLoop_autoplay_none_of_empty_head (synth : List Char → Except String Nat)
    (cs : Option Nat) (f m : Nat) (txt : List Char) (rest2 : List (List Char))
    (hte : (jsTrim txt).isEmpty = true) :
    ((genLoop synth cs f m (txt :: rest2) 0 (GenState.mk [] 0 [] none)).1).autoplay =
      none := by
  simp only [genLoop]
  split
  · rfl
  try rw [if_pos hte]
  exact genLoop_autoplay_of_pos synth cs f m rest2 1 _ Nat.one_pos

theorem genLoop_autoplay_some (synth : List Char → Except String Nat)
    (cs : Option Nat) (f m : Nat) :
    ∀ texts sg,
      ((genLoop synth cs f m texts 0 (GenState.mk [] 0 [] none)).1).autoplay =
        some sg →
      sg.pageFrom = f ∧ sg.pageTo = f ∧
        ((genLoop synth cs f m texts 0
          (GenState.mk [] 0 [] none)).1).segments.head? = some sg := by
  intro texts sg h
  cases texts with
  | nil => simp [genLoop] at h
  | cons txt rest2 =>
    revert h
    simp only [genLoop]
    split
    · intro h; simp at h
    split
    · intro h
      rw [genLoop_autoplay_of_pos synth cs f m rest2 1 _ Nat.one_pos] at h
      simp at h
    split
    · intro h; simp at h
    rename_i payloads heq
    split
    · intro h; simp at h
    split
    · intro h
      rw [genLoop_autoplay_of_pos synth cs f m rest2 1 _ Nat.one_pos] at h
      simp at h
    · intro h
      rw [genLoop_autoplay_of_pos synth cs f m rest2 1 _ Nat.one_pos] at h
      simp at h
      subst h
      exact ⟨rfl, rfl, genLoop_head_stable synth cs f m rest2 1 _ _ rfl⟩

theorem mem_of_head_eq {α : Type} {l : List α} {a : α} (h : l.head? = some a) :
    a ∈ l := by
  cases l with
  | nil => cases h
  | cons x xs =>
    simp only [List.head?_cons, Option.some.injEq] at h
    rw [← h]
    exact List.mem_cons_self x xs

theorem genLoop_head_autoplay (synth : List Char → Except String Nat)
    (cs : Option Nat) (f m : Nat) :
    ∀ texts sg,
      ((genLoop synth cs f m texts 0
        (GenState.mk [] 0 [] none)).1).segments.head? = some sg →
      sg.pageFrom = f →
      ((genLoop synth cs f m texts 0 (GenState.mk [] 0 [] none)).1).autoplay =
        some sg := by
  intro texts sg h hpf
  cases texts with
  | nil => simp [genLoop] at h
  | cons txt rest2 =>
    revert h
    simp only [genLoop]
    split
    · intro h; simp at h
    split
    · intro h
      rcases genLoop_mem_pageFrom synth cs f m rest2 (0 + 1) _ sg
          (mem_of_head_eq h) with hin | hge
      · simp at hin
      · omega
    split
    · intro h; simp at h
    rename_i payloads heq
    split
    · intro h; simp at h
    split
    · intro h
      rcases genLoop_mem_pageFrom synth cs f m rest2 (0 + 1) _ sg
          (mem_of_head_eq h) with hin | hge
      · simp at hin
      · omega
    · intro h
      have hseg : some (Segment.mk txt payloads (f + 0) (f + 0)) = some sg :=
        (genLoop_head_stable synth cs f m rest2 (0 + 1)
          (GenState.mk ([] ++ [Segment.mk txt payloads (f + 0) (f + 0)]) (0 + 1)
            ([] ++ calculateChunks m txt)
            (if f + 0 = f then some (Segment.mk txt payloads (f + 0) (f + 0))
             else none))
          (Segment.mk txt payloads (f + 0) (f + 0)) (by rfl)).symm.trans h
      rw [genLoop_autoplay_of_pos synth cs f m rest2 (0 + 1) _ Nat.one_pos]
      have hsg := Option.some.inj hseg
      rw [← hsg]
      simp

/-- C4: when some chunk of page fromPage + i fails while all earlier pages in
the range are empty or fully succeed (and no cancellation is signalled), the
run halts with the failure surfaced as the error message: the playlist suffix
appended by the run is exactly the one produced by the earlier pages, no
segment of the failing page or any later page is appended, and the segments
already emitted are unchanged. -/
theorem claim_C4 (pages : List (List Char)) (fromPage toPage : Nat)
    (synth : List Char → Except String Nat) (m : Nat)
    (texts : List (List Char)) (i : Nat) (txt : List Char) (msg : String)
    (hv1 : 1 ≤ fromPage) (hv2 : fromPage ≤ toPage) (hv3 : toPage ≤ pages.length)
    (htexts : texts = (pages.drop (fromPage - 1)).take (toPage - fromPage + 1))
    (hget : texts.get? i = some txt)
    (hprev : ∀ j tj, j < i → texts.get? j = some tj →
      (jsTrim tj).isEmpty = true ∨
        ∃ vs, allSynth synth (calculateChunks m tj) = Except.ok vs)
    (htrim : (jsTrim txt).isEmpty = false)
    (herr : allSynth synth (calculateChunks m txt) = Except.error msg) :
    (runGenerate pages fromPage toPage synth none m).segments =
        expectedSegments synth m fromPage (texts.take i) 0 ∧
      (runGenerate pages fromPage toPage synth none m).error = some msg ∧
      ∀ sg ∈ (runGenerate pages fromPage toPage synth none m).segments,
        sg.pageFrom < fromPage + i := by
  subst htexts
  simp only [runGenerate]
  rw [if_neg (by omega)]
  obtain ⟨h1, h2⟩ := genLoop_none_fail synth fromPage m
    ((pages.drop (fromPage - 1)).take (toPage - fromPage + 1)) 0
    (GenState.mk [] 0 [] none) i txt msg hget hprev htrim herr
  have h1' : ((genLoop synth none fromPage m
      ((pages.drop (fromPage - 1)).take (toPage - fromPage + 1)) 0
      (GenState.mk [] 0 [] none)).1).segments =
      expectedSegments synth m fromPage
        (((pages.drop (fromPage - 1)).take (toPage - fromPage + 1)).take i) 0 := by
    simpa using h1
  refine ⟨h1', ?_, ?_⟩
  · simp [h2, observedCancel]
  · intro sg hsg
    have hsg2 : sg ∈ expectedSegments synth m fromPage
        (((pages.drop (fromPage - 1)).take (toPage - fromPage + 1)).take i) 0 := by
      rw [← h1']
      exact hsg
    obtain ⟨_, hub⟩ := expectedSegments_mem_pageFrom synth m fromPage _ 0 sg hsg2
    have hlen : (((pages.drop (fromPage - 1)).take (toPage - fromPage + 1)).take i).length ≤ i := by
      rw [List.length_take]
      omega
    omega

/-- C4 witness: a concrete two-page run whose second page's only chunk fails
with message "boom": the first page's segment is kept, the error is reported,
and no segment of page 2 exists. -/
theorem claim_C4_witness :
    (runGenerate ["One.".toList, "Two.".toList] 1 2
        (fun c => if c = "Two.".toList then Except.error "boom" else Except.ok 0)
        none 100).segments =
        expectedSegments
          (fun c => if c = "Two.".toList then Except.error "boom" else Except.ok 0)
          100 1 ((["One.".toList, "Two.".toList]).take 1) 0 ∧
      (runGenerate ["One.".toList, "Two.".toList] 1 2
        (fun c => if c = "Two.".toList then Except.error "boom" else Except.ok 0)
        none 100).error = some "boom" ∧
      ∀ sg ∈ (runGenerate ["One.".toList, "Two.".toList] 1 2
          (fun c => if c = "Two.".toList then Except.error "boom" else Except.ok 0)
          none 100).segments, sg.pageFrom < 1 + 1 := by
  have happ := claim_C4 ["One.".toList, "Two.".toList] 1 2
    (fun c => if c = "Two.".toList then Except.error "boom" else Except.ok 0)
    100 ["One.".toList, "Two.".toList] 1 ("Two.".toList) "boom"
    (by decide) (by decide) (by decide) (by decide) (by decide)
    (by
      intro j tj hj hg
      have hj0 : j = 0 := by omega
      subst hj0
      simp only [List.get?] at hg
      cases hg
      exact Or.inr ⟨[0], rfl⟩)
    (by decide) rfl
  simpa using happ

/-- C5 counterexample: a cancelled run reports through the same error channel
as failures — after cancelling a one-page run, the error banner value is the
cancellation message rather than none, contradicting the claim that
cancellation is reported as an informational status and not as an error
banner. -/
theorem claim_C5_counterexample :
    (runGenerate ["Hi.".toList] 1 1 (fun _ => Except.ok 0) (some 0) 100).error =
      some cancelMessage := by decide

/-- C5 (amended): cancellation signalled from poll point n (n ≤ 2 · pages)
halts the run cleanly: the playlist suffix appended is exactly that of the
pages fully completed before the cancellation was observed (the first
n / 2 pages of the range), no segment is appended after the observation, and
the cancellation is reported by setting the error channel — the same channel
failures use — to the message "Audio generation was cancelled by the
user.". -/
theorem claim_C5 (pages : List (List Char)) (fromPage toPage m n : Nat)
    (synth : List Char → Except String Nat) (texts : List (List Char))
    (hv1 : 1 ≤ fromPage) (hv2 : fromPage ≤ toPage) (hv3 : toPage ≤ pages.length)
    (htexts : texts = (pages.drop (fromPage - 1)).take (toPage - fromPage + 1))
    (hok : ∀ txt ∈ texts, (jsTrim txt).isEmpty = false →
      ∃ vs, allSynth synth (calculateChunks m txt) = Except.ok vs)
    (hn : n ≤ 2 * texts.length) :
    (runGenerate pages fromPage toPage synth (some n) m).segments =
        expectedSegments synth m fromPage (texts.take (n / 2)) 0 ∧
      (runGenerate pages fromPage toPage synth (some n) m).error =
        some cancelMessage := by
  subst htexts
  simp only [runGenerate]
  rw [if_neg (by omega)]
  obtain ⟨h1, h2⟩ := genLoop_cancel_segments synth fromPage m
    ((pages.drop (fromPage - 1)).take (toPage - fromPage + 1)) 0
    (GenState.mk [] 0 [] none) n hok
  constructor
  · simpa using h1
  · rcases h2 with h | h
    · simp [h]
    · have hobs : observedCancel (some n)
          (2 * ((pages.drop (fromPage - 1)).take (toPage - fromPage + 1)).length) =
          true := by
        simp only [observedCancel, decide_eq_true_eq]
        exact hn
      rw [List.length_take, List.length_drop] at hobs
      simp [h, hobs]

/-- C5 witness: a two-page run with cancellation signalled at poll point 2:
exactly the first page's segment is kept and the error channel carries the
cancellation message. -/
theorem claim_C5_witness :
    (runGenerate ["Hi.".toList, "Yo.".toList] 1 2 (fun _ => Except.ok 0)
        (some 2) 100).segments =
        expectedSegments (fun _ => Except.ok 0) 100 1
          ((["Hi.".toList, "Yo.".toList]).take (2 / 2)) 0 ∧
      (runGenerate ["Hi.".toList, "Yo.".toList] 1 2 (fun _ => Except.ok 0)
        (some 2) 100).error = some cancelMessage := by
  have happ := claim_C5 ["Hi.".toList, "Yo.".toList] 1 2 100 2
    (fun _ => Except.ok 0) ["Hi.".toList, "Yo.".toList]
    (by decide) (by decide) (by decide) (by decide)
    (by
      intro txt hmem htr
      simp only [List.mem_cons, List.not_mem_nil, or_false] at hmem
      rcases hmem with h | h
      · subst h
        exact ⟨[0], rfl⟩
      · subst h
        exact ⟨[0], rfl⟩)
    (by decide)
  simpa using happ

/-- C8: generating over the range [3, 5] where page 4 is empty or
whitespace-only (and pages 3 and 5 synthesize successfully) appends exactly
two segments, tagged with page ranges (3,3) and (5,5); progress reaches the
total of 3 pages; synthesis is called exactly on the chunks of pages 3 and 5
(none for page 4); and no error is reported. -/
theorem claim_C8 (p1 p2 p3 p4 p5 : List Char) (rest : List (List Char))
    (synth : List Char → Except String Nat) (m : Nat) (r : GenResult)
    (hm : 0 < m)
    (h3 : (jsTrim p3).isEmpty = false) (h4 : (jsTrim p4).isEmpty = true)
    (h5 : (jsTrim p5).isEmpty = false)
    (hok3 : ∃ vs, allSynth synth (calculateChunks m p3) = Except.ok vs)
    (hok5 : ∃ vs, allSynth synth (calculateChunks m p5) = Except.ok vs)
    (hr : r = runGenerate (p1 :: p2 :: p3 :: p4 :: p5 :: rest) 3 5 synth none m) :
    r.segments.map (fun sg => (sg.pageFrom, sg.pageTo)) = [(3, 3), (5, 5)] ∧
      r.progress = 3 ∧ r.total = 3 ∧
      r.calls = calculateChunks m p3 ++ calculateChunks m p5 ∧
      r.error = none := by
  subst hr
  simp only [runGenerate]
  rw [if_neg (by simp only [List.length_cons]; omega)]
  rw [show (((p1 :: p2 :: p3 :: p4 :: p5 :: rest).drop (3 - 1)).take (5 - 3 + 1)) =
    [p3, p4, p5] from rfl]
  obtain ⟨vs3, hvs3⟩ := hok3
  obtain ⟨vs5, hvs5⟩ := hok5
  have hok : ∀ txt ∈ [p3, p4, p5], (jsTrim txt).isEmpty = false →
      ∃ vs, allSynth synth (calculateChunks m txt) = Except.ok vs := by
    intro txt hmem htr
    simp only [List.mem_cons, List.not_mem_nil, or_false] at hmem
    rcases hmem with h | h | h
    · subst h; exact ⟨vs3, hvs3⟩
    · subst h; rw [h4] at htr; cases htr
    · subst h; exact ⟨vs5, hvs5⟩
  obtain ⟨h1, h2, hc, he⟩ := genLoop_none_success synth 3 m [p3, p4, p5] 0
    (GenState.mk [] 0 [] none) hok
  have hne3 : vs3 ≠ [] := by
    intro hcon
    have hlen := allSynth_ok_length synth _ _ hvs3
    rw [hcon] at hlen
    have hchunks := calculateChunks_ne_nil m hm p3 (by
      intro hc2
      rw [hc2] at h3
      simp at h3)
    rw [List.length_nil] at hlen
    exact hchunks (List.length_eq_zero.mp hlen.symm)
  have hne5 : vs5 ≠ [] := by
    intro hcon
    have hlen := allSynth_ok_length synth _ _ hvs5
    rw [hcon] at hlen
    have hchunks := calculateChunks_ne_nil m hm p5 (by
      intro hc2
      rw [hc2] at h5
      simp at h5)
    rw [List.length_nil] at hlen
    exact hchunks (List.length_eq_zero.mp hlen.symm)
  refine ⟨?_, ?_, rfl, ?_, ?_⟩
  · rw [show (({ segments := [], progress := 0, calls := [], autoplay := none} :
        GenState).segments) = [] from rfl] at h1
    rcases vs3 with _ | ⟨v3, vs3'⟩
    · exact absurd rfl hne3
    rcases vs5 with _ | ⟨v5, vs5'⟩
    · exact absurd rfl hne5
    have hseg : ((genLoop synth none 3 m [p3, p4, p5] 0
        (GenState.mk [] 0 [] none)).1).segments =
        [Segment.mk p3 (v3 :: vs3') (3 + 0) (3 + 0),
         Segment.mk p5 (v5 :: vs5') (3 + 2) (3 + 2)] := by
      rw [h1]
      simp [expectedSegments, pageSegment, h3, h4, h5, hvs3, hvs5]
    rw [hseg]
    simp
  · rw [h2]
    rfl
  · rw [hc]
    simp [expectedCalls, h3, h4, h5]
  · simp [he, observedCancel]

/-- C8 witness: the [3, 5]-range scenario evaluated on concrete pages with
page 4 whitespace-only and a synthesis oracle returning payload 7 for every
chunk. -/
theorem claim_C8_witness :
    (runGenerate ["".toList, "".toList, "Three.".toList, "  ".toList,
        "Five.".toList] 3 5 (fun _ => Except.ok 7) none 100).segments.map
        (fun sg => (sg.pageFrom, sg.pageTo)) = [(3, 3), (5, 5)] ∧
      (runGenerate ["".toList, "".toList, "Three.".toList, "  ".toList,
        "Five.".toList] 3 5 (fun _ => Except.ok 7) none 100).progress = 3 ∧
      (runGenerate ["".toList, "".toList, "Three.".toList, "  ".toList,
        "Five.".toList] 3 5 (fun _ => Except.ok 7) none 100).total = 3 ∧
      (runGenerate ["".toList, "".toList, "Three.".toList, "  ".toList,
        "Five.".toList] 3 5 (fun _ => Except.ok 7) none 100).calls =
        calculateChunks 100 ("Three.".toList) ++ calculateChunks 100 ("Five.".toList) ∧
      (runGenerate ["".toList, "".toList, "Three.".toList, "  ".toList,
        "Five.".toList] 3 5 (fun _ => Except.ok 7) none 100).error = none :=
  claim_C8 ("".toList) ("".toList) ("Three.".toList) ("  ".toList)
    ("Five.".toList) [] (fun _ => Except.ok 7) 100 _
    (by decide) (by decide) (by decide) (by decide)
    ⟨[7], rfl⟩ ⟨[7], rfl⟩ rfl

/-- C10: autoplay is wired to the first page of the requested range only: the
run's autoplay segment, when present, is tagged with the first page and is the
first segment appended; conversely, if the run's first appended segment is the
first page's, it is handed to autoplay; an empty first page yields no
autoplay; and the engine-side handler selects and plays the handed segment
exactly when nothing is selected and nothing is playing, leaving the state
unchanged otherwise. -/
theorem claim_C10 (pages : List (List Char)) (fromPage toPage m : Nat)
    (synth : List Char → Except String Nat) (cs : Option Nat)
    (texts : List (List Char))
    (hv1 : 1 ≤ fromPage) (hv2 : fromPage ≤ toPage) (hv3 : toPage ≤ pages.length)
    (htexts : texts = (pages.drop (fromPage - 1)).take (toPage - fromPage + 1)) :
    (∀ txt rest2, texts = txt :: rest2 → (jsTrim txt).isEmpty = true →
      (runGenerate pages fromPage toPage synth cs m).autoplay = none) ∧
      (∀ sg, (runGenerate pages fromPage toPage synth cs m).autoplay = some sg →
        sg.pageFrom = fromPage ∧ sg.pageTo = fromPage ∧
          (runGenerate pages fromPage toPage synth cs m).segments.head? = some sg) ∧
      (∀ sg,
        (runGenerate pages fromPage toPage synth cs m).segments.head? = some sg →
        sg.pageFrom = fromPage →
        (runGenerate pages fromPage toPage synth cs m).autoplay = some sg) ∧
      (∀ (now : ℚ) (g : Seg) (s : AppState),
        s.isPlaying = false → s.current = none →
          (handleAutoplayFirstSegment now g s).current = some g ∧
            (handleAutoplayFirstSegment now g s).isPlaying = true) ∧
      (∀ (now : ℚ) (g : Seg) (s : AppState),
        s.isPlaying = true ∨ s.current ≠ none →
          handleAutoplayFirstSegment now g s = s) := by
  subst htexts
  simp only [runGenerate]
  rw [if_neg (by omega)]
  refine ⟨?_, ?_, ?_, ?_, ?_⟩
  · intro txt rest2 htx hte
    rw [htx]
    exact genLoop_autoplay_none_of_empty_head synth cs fromPage m txt rest2 hte
  · intro sg h
    exact genLoop_autoplay_some synth cs fromPage m _ sg h
  · intro sg h hpf
    exact genLoop_head_autoplay synth cs fromPage m _ sg h hpf
  · intro now g s hp hc
    simp [handleAutoplayFirstSegment, hp, hc]
  · intro now g s hd
    rcases hd with h | h
    · simp [handleAutoplayFirstSegment, h]
    · simp [handleAutoplayFirstSegment, h]

/-- C10 witness: the autoplay wiring evaluated on a concrete one-page run and
on a concrete idle engine state. -/
theorem claim_C10_witness :
    (∀ txt rest2, (["Hi.".toList] : List (List Char)) = txt :: rest2 →
      (jsTrim txt).isEmpty = true →
      (runGenerate ["Hi.".toList] 1 1 (fun _ => Except.ok 0) none 100).autoplay =
        none) ∧
      (∀ sg, (runGenerate ["Hi.".toList] 1 1 (fun _ => Except.ok 0) none
          100).autoplay = some sg →
        sg.pageFrom = 1 ∧ sg.pageTo = 1 ∧
          (runGenerate ["Hi.".toList] 1 1 (fun _ => Except.ok 0) none
            100).segments.head? = some sg) ∧
      (∀ sg, (runGenerate ["Hi.".toList] 1 1 (fun _ => Except.ok 0) none
          100).segments.head? = some sg →
        sg.pageFrom = 1 →
        (runGenerate ["Hi.".toList] 1 1 (fun _ => Except.ok 0) none
          100).autoplay = some sg) ∧
      (∀ (now : ℚ) (g : Seg) (s : AppState),
        s.isPlaying = false → s.current = none →
          (handleAutoplayFirstSegment now g s).current = some g ∧
            (handleAutoplayFirstSegment now g s).isPlaying = true) ∧
      (∀ (now : ℚ) (g : Seg) (s : AppState),
        s.isPlaying = true ∨ s.current ≠ none →
          handleAutoplayFirstSegment now g s = s) := by
  have happ := claim_C10 ["Hi.".toList] 1 1 100 (fun _ => Except.ok 0) none
    ["Hi.".toList] (by decide) (by decide) (by decide) (by decide)
  simpa using happ

end BookReader
